import Mathlib

/-!
Verification of the `hashers` repository (Combo32 = Komi32 for short inputs,
Mult32 for long inputs) against its natural-language specification.

The C sources are shallowly embedded: bytes are modelled as a total function
`Nat → Nat` read modulo 256, machine words as `Nat` with explicit `% 2 ^ 32`
or `% 2 ^ 64` at every point where the C types truncate, and every input-byte
read and random-table read is logged in the state so that memory-safety
claims become statements about the logs.  The build configuration embedded is
the one the headers select by default: little-endian, no byte swap.
-/

namespace Hashers

/-- One byte of the message buffer: memory is a total function, read mod 256. -/
def byteAt (data : Nat → Nat) (i : Nat) : Nat := data i % 256

/-- Little-endian read of `c` bytes starting at offset `p`
(the `memcpy` into a zero-initialised integer used by both headers). -/
def readLE (data : Nat → Nat) (p : Nat) : Nat → Nat
  | 0 => 0
  | c + 1 => readLE data p c + (byteAt data (p + c) <<< (8 * c))

/-- The list of byte offsets `[p, p+1, …, p+c-1]` touched by a `c`-byte read. -/
def readIdx (p c : Nat) : List Nat := (List.range c).map (p + ·)

/-- GET_U32: 4-byte little-endian read (komi32.h, memcpy variant). -/
def GET_U32 (data : Nat → Nat) (p : Nat) : Nat := readLE data p 4

/-- kh_m64: 32×32→64 multiply split into low and high 32-bit halves. -/
def kh_m64 (m1 m2 : Nat) : Nat × Nat :=
  ((m1 * m2) % 2 ^ 32, ((m1 * m2) >>> 32) % 2 ^ 32)

/-- The short hasher's visible state: Seed1, Seed5, and the log of byte
offsets read so far. -/
structure KState where
  s1 : Nat
  s5 : Nat
  reads : List Nat

/-- KOMI32_HASHROUND: parameterless mixing round. -/
def komi32_hashround (st : KState) : KState :=
  let r := kh_m64 st.s1 st.s5
  let s5 := (st.s5 + r.2) % 2 ^ 32
  { st with s1 := s5 ^^^ r.1, s5 := s5 }

/-- KOMI32_SEEDHASH4: seed hashing round with 4-byte input. -/
def komi32_seedhash4 (x : Nat) (st : KState) : KState :=
  let r := kh_m64 (st.s1 ^^^ (x &&& 0x55555555)) (st.s5 ^^^ (x &&& 0xAAAAAAAA))
  let s5 := (st.s5 + r.2) % 2 ^ 32
  { st with s1 := s5 ^^^ r.1, s5 := s5 }

/-- KOMI32_HASH8: hashing round reading an 8-byte input at offset `p`. -/
def komi32_hash8 (data : Nat → Nat) (p : Nat) (st : KState) : KState :=
  let r := kh_m64 (st.s1 ^^^ GET_U32 data p) (st.s5 ^^^ GET_U32 data (p + 4))
  let s5 := (st.s5 + r.2) % 2 ^ 32
  { s1 := s5 ^^^ r.1, s5 := s5, reads := st.reads ++ readIdx p 8 }

/-- komi32_final_bytes: build a 32-bit value out of the `msgLen ≤ 3`
remaining bytes at offset `p`, padded with the final byte `fb`. -/
def komi32_final_bytes (data : Nat → Nat) (p msgLen fb : Nat) : Nat :=
  (readLE data p msgLen ||| (fb <<< (msgLen <<< 3))) % 2 ^ 32

/-- The eight-lane state used only inside the 32-byte bulk loop. -/
structure K8State where
  s1 : Nat
  s2 : Nat
  s3 : Nat
  s4 : Nat
  s5 : Nat
  s6 : Nat
  s7 : Nat
  s8 : Nat
  reads : List Nat

/-- The six fixed constants XORed against Seed1/Seed5 to derive the
transient lanes Seed2–Seed4 and Seed6–Seed8 (Komi32_impl). -/
def komi32_laneConsts : List Nat :=
  [0x03707344, 0x299F31D0, 0xEC4E6C89, 0x34E90C6C, 0xC97C50DD, 0xB5470917]

/-- Derivation of the transient lanes at entry to the bulk loop. -/
def komi32_lanes (st : KState) : K8State :=
  { s1 := st.s1
    s2 := 0x03707344 ^^^ st.s1
    s3 := 0x299F31D0 ^^^ st.s1
    s4 := 0xEC4E6C89 ^^^ st.s1
    s5 := st.s5
    s6 := 0x34E90C6C ^^^ st.s5
    s7 := 0xC97C50DD ^^^ st.s5
    s8 := 0xB5470917 ^^^ st.s5
    reads := st.reads }

/-- One 32-byte block of the bulk loop: four interleaved mixing rounds, the
second operand lanes of each multiply taken before this block's updates, and
the cross-lane "shifting" assignments exactly as in Komi32_impl. -/
def komi32_block (data : Nat → Nat) (p : Nat) (st : K8State) : K8State :=
  let r1 := kh_m64 (st.s1 ^^^ GET_U32 data p) (st.s5 ^^^ GET_U32 data (p + 4))
  let s5 := (st.s5 + r1.2) % 2 ^ 32
  let r2 := kh_m64 (st.s2 ^^^ GET_U32 data (p + 8)) (st.s6 ^^^ GET_U32 data (p + 12))
  let s2 := s5 ^^^ r2.1
  let s6 := (st.s6 + r2.2) % 2 ^ 32
  let r3 := kh_m64 (st.s3 ^^^ GET_U32 data (p + 16)) (st.s7 ^^^ GET_U32 data (p + 20))
  let s3 := s6 ^^^ r3.1
  let s7 := (st.s7 + r3.2) % 2 ^ 32
  let r4 := kh_m64 (st.s4 ^^^ GET_U32 data (p + 24)) (st.s8 ^^^ GET_U32 data (p + 28))
  let s4 := s7 ^^^ r4.1
  let s8 := (st.s8 + r4.2) % 2 ^ 32
  { s1 := s8 ^^^ r1.1, s2 := s2, s3 := s3, s4 := s4
    s5 := s5, s6 := s6, s7 := s7, s8 := s8
    reads := st.reads ++ readIdx p 32 }

/-- The bulk `do … while (MsgLen >= 32)` loop of Komi32_impl; returns the
advanced offset, the remaining length and the eight-lane state. -/
def komi32_loop (data : Nat → Nat) (p msgLen : Nat) (st : K8State) :
    Nat × Nat × K8State :=
  if h : 32 ≤ msgLen then
    komi32_loop data (p + 32) (msgLen - 32) (komi32_block data p st)
  else (p, msgLen, st)
termination_by msgLen
decreasing_by omega

/-- Folding the eight lanes back down to two after the last full 32-byte
block: `Seed5 ^= Seed6 ^ Seed7 ^ Seed8; Seed1 ^= Seed2 ^ Seed3 ^ Seed4`. -/
def komi32_fold (st : K8State) : KState :=
  { s1 := st.s1 ^^^ (st.s2 ^^^ st.s3 ^^^ st.s4)
    s5 := st.s5 ^^^ (st.s6 ^^^ st.s7 ^^^ st.s8)
    reads := st.reads }

/-- `c` consecutive KOMI32_HASH8 rounds starting at offset `p`. -/
def komi32_hash8_seq (data : Nat → Nat) (p : Nat) : Nat → KState → KState
  | 0, st => st
  | c + 1, st => komi32_hash8_seq data (p + 8) c (komi32_hash8 data p st)

/-- The tail switch of Komi32_impl: `numHash8 = (MsgLen >> 3) & 3` 8-byte
rounds by fall-through, then `MsgLen &= 7` (cases 1–3); case 0 does nothing. -/
def komi32_tail (data : Nat → Nat) (p msgLen : Nat) (st : KState) :
    Nat × Nat × KState :=
  let c := (msgLen >>> 3) &&& 3
  if c = 0 then (p, msgLen, st)
  else (p + 8 * c, msgLen &&& 7, komi32_hash8_seq data p c st)

/-- Body of KOMI32_FINALIZE with the final padding byte `fb` already
computed.  The switch covers `msgLen` 0–7 (the only values it is invoked
with): cases 4–7 XOR a 4-byte word into Seed1 and the `fb`-padded remaining
0–3 bytes into Seed5; cases 0–3 XOR only the `fb`-padded partial word into
Seed1; then two parameterless rounds. -/
def komi32_finalize_fb (data : Nat → Nat) (p msgLen fb : Nat) (st : KState) :
    KState :=
  let st1 :=
    if 4 ≤ msgLen then
      { s1 := st.s1 ^^^ GET_U32 data p
        s5 := st.s5 ^^^ komi32_final_bytes data (p + 4) (msgLen - 4) fb
        reads := st.reads ++ [p + msgLen - 1] ++ readIdx p 4 ++ readIdx (p + 4) (msgLen - 4) }
    else
      { s1 := st.s1 ^^^ komi32_final_bytes data p msgLen fb
        s5 := st.s5
        reads := st.reads ++ [p + msgLen - 1] ++ readIdx p msgLen }
  komi32_hashround (komi32_hashround st1)

/-- KOMI32_FINALIZE: derive `fb = 1 << (Msg[MsgLen - 1] >> 7)` from the last
byte of the whole message (offset `p + msgLen - 1`, also when `msgLen = 0`,
in which case that byte was consumed by an earlier round), then run the
final switch. -/
def komi32_finalize (data : Nat → Nat) (p msgLen : Nat) (st : KState) : KState :=
  komi32_finalize_fb data p msgLen (1 <<< (byteAt data (p + msgLen - 1) >>> 7)) st

/-- Seed/state initialisation of Komi32_impl: fixed Seed1/Seed5 constants,
`UseSeed ^= MsgLen`, then one seed-hash round per 32-bit half. -/
def komi32_seedInit (len useSeed : Nat) : KState :=
  let u := useSeed ^^^ len
  komi32_seedhash4 ((u >>> 32) % 2 ^ 32)
    (komi32_seedhash4 (u % 2 ^ 32)
      { s1 := 0xC5A308D3, s5 := 0xB8D01377, reads := [] })

/-- Everything Komi32_impl does between seed initialisation and
KOMI32_FINALIZE, for `len ≠ 0`: the bulk loop (when `32 ≤ len`) with its
lane derivation and fold, then the tail switch. -/
def komi32_pretail (data : Nat → Nat) (len useSeed : Nat) : Nat × Nat × KState :=
  let st1 := komi32_seedInit len useSeed
  let t :=
    if 32 ≤ len then
      let r := komi32_loop data 0 len (komi32_lanes st1)
      (r.1, r.2.1, komi32_fold r.2.2)
    else (0, len, st1)
  komi32_tail data t.1 t.2.1 t.2.2

/-- Komi32_impl as a state transformer: final (Seed1, Seed5) plus the log of
all byte offsets read. -/
def komi32_run (data : Nat → Nat) (len useSeed : Nat) : KState :=
  let st1 := komi32_seedInit len useSeed
  if len = 0 then
    komi32_hashround (komi32_hashround st1)
  else
    let t := komi32_pretail data len useSeed
    komi32_finalize data t.1 t.2.1 t.2.2

/-- Komi32_impl: the 32-bit result is the final Seed1. -/
def Komi32_impl (data : Nat → Nat) (len useSeed : Nat) : Nat :=
  (komi32_run data len useSeed).s1

/-- Komi32: public entry point; the seed parameter is a uint64_t. -/
def Komi32 (data : Nat → Nat) (len seed : Nat) : Nat :=
  Komi32_impl data len (seed % 2 ^ 64)

/-! ### Mult32: random table generator (mult32.h) -/

/-- RANDOM_POWER: power-of-two size of the masked index range. -/
def RANDOM_POWER : Nat := 128

/-- RANDOM_EXTRA: slack entries past the power-of-two bound. -/
def RANDOM_EXTRA : Nat := 9

/-- RANDOM_LENGTH: total length of the random table. -/
def RANDOM_LENGTH : Nat := RANDOM_POWER + RANDOM_EXTRA

/-- SplitMix64: one round of the 64-bit mixer used to seed Xorshift+. -/
def SplitMix64 (x : Nat) : Nat :=
  let r1 := ((x ^^^ (x >>> 30)) * 0xBF58476D1CE4E5B9) % 2 ^ 64
  let r2 := ((r1 ^^^ (r1 >>> 27)) * 0x94D049BB133111EB) % 2 ^ 64
  r2 ^^^ (r2 >>> 31)

/-- Xorshift128p_init: seed the two 64-bit state words with two SplitMix64
iterations, the fixed odd increment added before each. -/
def Xorshift128p_init (seed : Nat) : Nat × Nat :=
  let y := 0x9E3779B97F4A7C15
  let x1 := (seed + y) % 2 ^ 64
  let x2 := (x1 + y) % 2 ^ 64
  (SplitMix64 x1, SplitMix64 x2)

/-- Xorshift128p: one generator advance, returning the output and the new
state.  The old word1 becomes the new word0; the transformed word0 becomes
the new word1; the output is `x0 + x1` evaluated after the transformation,
i.e. the sum of the two post-update state words. -/
def Xorshift128p (st : Nat × Nat) : Nat × (Nat × Nat) :=
  let x0 := st.1
  let x1 := st.2
  let a := x0 ^^^ ((x0 <<< 23) % 2 ^ 64)
  let b := a ^^^ (a >>> 18)
  let c := b ^^^ (x1 ^^^ (x1 >>> 5))
  ((c + x1) % 2 ^ 64, (x1, c))

/-- First `c` outputs of the generator started from state `st`
(the fill loop of Mult32_init). -/
def xorshiftOutputs : Nat → Nat × Nat → List Nat
  | 0, _ => []
  | c + 1, st => (Xorshift128p st).1 :: xorshiftOutputs c (Xorshift128p st).2

/-- Generator state after `j` advances from state `st`. -/
def xorshiftIterFrom (st : Nat × Nat) : Nat → Nat × Nat
  | 0 => st
  | j + 1 => xorshiftIterFrom (Xorshift128p st).2 j

/-- The table contents produced by Mult32_init: the first RANDOM_LENGTH
outputs of Xorshift+ seeded (via SplitMix64) from 0xDEADBEEFDEADBEEF. -/
def mult32_random_list : List Nat :=
  xorshiftOutputs RANDOM_LENGTH (Xorshift128p_init 0xDEADBEEFDEADBEEF)

/-- mult32_random: the fully initialised table as a function; entries past
the array length default to 0. -/
def mult32_random (j : Nat) : Nat := mult32_random_list.getD j 0

/-- Mult32_init: the one-time initialisation writes the RANDOM_LENGTH
generated entries; memory outside the array keeps its previous contents. -/
def Mult32_init (prev : Nat → Nat) : Nat → Nat :=
  fun j => if j < RANDOM_LENGTH then mult32_random j else prev j

/-! ### Mult32: hashing rounds and main function (mult32.h) -/

/-- mult32_m64: 32×32→64 multiply (m2 is already a high half). -/
def mult32_m64 (m1 m2 : Nat) : Nat := m1 * m2

/-- The long hasher's state: the 64-bit accumulator, the rotating table
index, the log of table indices read, and the log of byte offsets read. -/
structure MState where
  hash : Nat
  i : Nat
  tab : List Nat
  bytes : List Nat

/-- MULT32_VALHASH8: value hashing round folding `x` against the next table
entry into the accumulator. -/
def mult32_valhash8 (table : Nat → Nat) (x : Nat) (st : MState) : MState :=
  let val := x ^^^ table st.i
  { st with hash := st.hash ^^^ mult32_m64 (val % 2 ^ 32) (val >>> 32)
            i := st.i + 1
            tab := st.tab ++ [st.i] }

/-- MULT32_HASH8: hashing round reading an 8-byte input at offset `p`. -/
def mult32_hash8 (table : Nat → Nat) (data : Nat → Nat) (p : Nat) (st : MState) :
    MState :=
  let val := readLE data p 8 ^^^ table st.i
  { hash := st.hash ^^^ mult32_m64 (val % 2 ^ 32) (val >>> 32)
    i := st.i + 1
    tab := st.tab ++ [st.i]
    bytes := st.bytes ++ readIdx p 8 }

/-- MULT32_HASHROUND: hashing round without input, consuming one table entry. -/
def mult32_hashround (table : Nat → Nat) (st : MState) : MState :=
  let val := table st.i
  { st with hash := st.hash ^^^ mult32_m64 (val % 2 ^ 32) (val >>> 32)
            i := st.i + 1
            tab := st.tab ++ [st.i] }

/-- final_bytes: the little-endian 8-byte padding pattern (a modified
0xDEADBEEFDEADBEEF) with its low `msgLen ≤ 7` bytes overwritten by the
remaining input bytes. -/
def final_bytes (data : Nat → Nat) (p msgLen : Nat) : Nat :=
  ((0xDCADBCEDDCADBCED >>> (8 * msgLen)) <<< (8 * msgLen)) ||| readLE data p msgLen

/-- MULT32_FINALIZE: one last value hashing round over the padded final
0–7 bytes. -/
def mult32_finalize (table : Nat → Nat) (data : Nat → Nat) (p msgLen : Nat)
    (st : MState) : MState :=
  let st1 := mult32_valhash8 table (final_bytes data p msgLen) st
  { st1 with bytes := st1.bytes ++ readIdx p msgLen }

/-- One unrolled iteration of the bulk loop: eight MULT32_HASH8 rounds on
consecutive 8-byte blocks, one MULT32_HASHROUND, then `i &= RANDOM_POWER-1`. -/
def mult32_block (table : Nat → Nat) (data : Nat → Nat) (p : Nat) (st : MState) :
    MState :=
  let st := mult32_hash8 table data p st
  let st := mult32_hash8 table data (p + 8) st
  let st := mult32_hash8 table data (p + 16) st
  let st := mult32_hash8 table data (p + 24) st
  let st := mult32_hash8 table data (p + 32) st
  let st := mult32_hash8 table data (p + 40) st
  let st := mult32_hash8 table data (p + 48) st
  let st := mult32_hash8 table data (p + 56) st
  let st := mult32_hashround table st
  { st with i := st.i &&& (RANDOM_POWER - 1) }

/-- The `while (MsgLen >= 64)` bulk loop of Mult32_impl. -/
def mult32_loop (table : Nat → Nat) (data : Nat → Nat) (p msgLen : Nat)
    (st : MState) : Nat × Nat × MState :=
  if h : 64 ≤ msgLen then
    mult32_loop table data (p + 64) (msgLen - 64) (mult32_block table data p st)
  else (p, msgLen, st)
termination_by msgLen
decreasing_by omega

/-- `c` consecutive MULT32_HASH8 rounds starting at offset `p`. -/
def mult32_hash8_seq (table : Nat → Nat) (data : Nat → Nat) (p : Nat) :
    Nat → MState → MState
  | 0, st => st
  | c + 1, st => mult32_hash8_seq table data (p + 8) c (mult32_hash8 table data p st)

/-- The tail switch of Mult32_impl: `numHash8 = (MsgLen >> 3) & 7` 8-byte
rounds by fall-through, then one MULT32_HASHROUND and `MsgLen &= 7`
(cases 1–7); case 0 does nothing at all. -/
def mult32_tail (table : Nat → Nat) (data : Nat → Nat) (p msgLen : Nat)
    (st : MState) : Nat × Nat × MState :=
  let c := (msgLen >>> 3) &&& 7
  if c = 0 then (p, msgLen, st)
  else (p + 8 * c, msgLen &&& 7,
        mult32_hashround table (mult32_hash8_seq table data p c st))

/-- Mult32_impl up to (and including) MULT32_FINALIZE, as a state
transformer: accumulator `hash = UseSeed ^ MsgLen`, table index
`((MsgLen >> 6) ^ MsgLen) & (RANDOM_POWER-1)`, one initial MULT32_VALHASH8
of the accumulator against itself, bulk loop, tail switch, finalize. -/
def mult32_run (table : Nat → Nat) (data : Nat → Nat) (len useSeed : Nat) :
    MState :=
  let st0 : MState :=
    { hash := useSeed ^^^ len
      i := ((len >>> 6) ^^^ len) &&& (RANDOM_POWER - 1)
      tab := []
      bytes := [] }
  let st1 := mult32_valhash8 table st0.hash st0
  let t := mult32_loop table data 0 len st1
  let u := mult32_tail table data t.1 t.2.1 t.2.2
  mult32_finalize table data u.1 u.2.1 u.2.2

/-- The final 64→32 fold of Mult32_impl: fresh Seed1/Seed5 lanes and one
KOMI32_SEEDHASH4 round per 32-bit half of the accumulator. -/
def mult32_fold (hash : Nat) : Nat :=
  (komi32_seedhash4 ((hash >>> 32) % 2 ^ 32)
    (komi32_seedhash4 (hash % 2 ^ 32)
      { s1 := 0xC5A308D3, s5 := 0xB8D01377, reads := [] })).s1

/-- Mult32_impl parameterised by the current table contents. -/
def Mult32_impl (table : Nat → Nat) (data : Nat → Nat) (len useSeed : Nat) : Nat :=
  mult32_fold (mult32_run table data len useSeed).hash

/-- Mult32: value of the public entry point once the table is initialised
(the seed parameter is a uint64_t). -/
def Mult32 (data : Nat → Nat) (len seed : Nat) : Nat :=
  Mult32_impl mult32_random data len (seed % 2 ^ 64)

/-- Combo32: the dispatcher. -/
def Combo32 (data : Nat → Nat) (len seed : Nat) : Nat :=
  if len < 64 then Komi32 data len seed else Mult32 data len seed

/-! ### Process-level model of the lazy one-time table initialisation -/

/-- The process-wide mutable state behind Mult32: the `oneTimeDone` flag and
the current contents of the `mult32_random` array. -/
structure Mult32Proc where
  oneTimeDone : Bool
  table : Nat → Nat

/-- Process state at startup: flag clear, static array zero-initialised. -/
def procStart : Mult32Proc := { oneTimeDone := false, table := fun _ => 0 }

/-- Mult32 as it executes in the process: run Mult32_init on first use,
then hash with the current table contents. -/
def Mult32_call (pr : Mult32Proc) (data : Nat → Nat) (len seed : Nat) :
    Nat × Mult32Proc :=
  let pr :=
    if pr.oneTimeDone = false then
      { oneTimeDone := true, table := Mult32_init pr.table }
    else pr
  (Mult32_impl pr.table data len (seed % 2 ^ 64), pr)

/-- Combo32 as it executes in the process. -/
def Combo32_call (pr : Mult32Proc) (data : Nat → Nat) (len seed : Nat) :
    Nat × Mult32Proc :=
  if len < 64 then (Komi32 data len seed, pr) else Mult32_call pr data len seed

/-- A hash call record: which entry point was invoked, on which input. -/
inductive HashCall where
  | komi (data : Nat → Nat) (len seed : Nat)
  | mult (data : Nat → Nat) (len seed : Nat)
  | combo (data : Nat → Nat) (len seed : Nat)

/-- Effect of one hash call on the process state (Komi32 touches none). -/
def runCall (pr : Mult32Proc) : HashCall → Mult32Proc
  | .komi _ _ _ => pr
  | .mult data len seed => (Mult32_call pr data len seed).2
  | .combo data len seed => (Combo32_call pr data len seed).2

/-- Process state after a sequence of hash calls. -/
def runCalls (pr : Mult32Proc) : List HashCall → Mult32Proc
  | [] => pr
  | c :: cs => runCalls (runCall pr c) cs

/-! ### Arithmetic and read-log helper lemmas -/

theorem and_127_eq_mod (x : Nat) : x &&& 127 = x % 128 := by
  have h := Nat.and_pow_two_sub_one_eq_mod x 7
  norm_num at h
  exact h

theorem and_7_eq_mod (x : Nat) : x &&& 7 = x % 8 := by
  have h := Nat.and_pow_two_sub_one_eq_mod x 3
  norm_num at h
  exact h

theorem and_3_eq_mod (x : Nat) : x &&& 3 = x % 4 := by
  have h := Nat.and_pow_two_sub_one_eq_mod x 2
  norm_num at h
  exact h

theorem shiftRight_3_eq_div (x : Nat) : x >>> 3 = x / 8 := by
  rw [Nat.shiftRight_eq_div_pow]

theorem readIdx_one (p : Nat) : readIdx p 1 = [p] := rfl

theorem readIdx_append (p a b : Nat) :
    readIdx p a ++ readIdx (p + a) b = readIdx p (a + b) := by
  simp only [readIdx, List.range_add, List.map_append, List.map_map]
  congr 1
  apply List.map_congr_left
  intro j _
  simp [Function.comp]
  omega

theorem mem_readIdx {j : Nat} (p c : Nat) :
    j ∈ readIdx p c ↔ ∃ t, t < c ∧ j = p + t := by
  simp only [readIdx, List.mem_map, List.mem_range]
  constructor
  · rintro ⟨t, ht, rfl⟩; exact ⟨t, ht, rfl⟩
  · rintro ⟨t, ht, rfl⟩; exact ⟨t, ht, rfl⟩

theorem readIdx_zero_off (n : Nat) : readIdx 0 n = List.range n := by
  simp [readIdx]

theorem komi32_seedhash4_s1_lt (x : Nat) (st : KState) :
    (komi32_seedhash4 x st).s1 < 2 ^ 32 := by
  simp only [komi32_seedhash4, kh_m64]
  exact Nat.xor_lt_two_pow (Nat.mod_lt _ (by norm_num)) (Nat.mod_lt _ (by norm_num))

/-! ### Komi32 control-flow lemmas -/

theorem komi32_loop_spec (data : Nat → Nat) : ∀ msgLen p st,
    (komi32_loop data p msgLen st).1 + (komi32_loop data p msgLen st).2.1 = p + msgLen ∧
    (komi32_loop data p msgLen st).2.1 < 32 := by
  intro msgLen
  induction msgLen using Nat.strong_induction_on with
  | _ msgLen ih =>
    intro p st
    rw [komi32_loop]
    by_cases h : 32 ≤ msgLen
    · simp only [dif_pos h]
      have hs := ih (msgLen - 32) (by omega) (p + 32) (komi32_block data p st)
      omega
    · simp only [dif_neg h]
      exact ⟨trivial, by omega⟩

theorem komi32_tail_spec (data : Nat → Nat) (p m : Nat) (st : KState) (h : m < 32) :
    (komi32_tail data p m st).1 + (komi32_tail data p m st).2.1 = p + m ∧
    (komi32_tail data p m st).2.1 < 8 := by
  have hc : (m >>> 3) &&& 3 = m / 8 := by
    rw [shiftRight_3_eq_div, and_3_eq_mod]
    omega
  by_cases h0 : (m >>> 3) &&& 3 = 0
  · rw [hc] at h0
    simp only [komi32_tail, hc, if_pos h0]
    exact ⟨trivial, by omega⟩
  · simp only [komi32_tail, if_neg h0]
    rw [hc] at h0 ⊢
    rw [and_7_eq_mod]
    omega

theorem komi32_pretail_spec (data : Nat → Nat) (n k : Nat) :
    (komi32_pretail data n k).1 + (komi32_pretail data n k).2.1 = n ∧
    (komi32_pretail data n k).2.1 < 8 := by
  unfold komi32_pretail
  by_cases h : 32 ≤ n
  · simp only [if_pos h]
    have hl := komi32_loop_spec data n 0 (komi32_lanes (komi32_seedInit n k))
    have ht := komi32_tail_spec data
      (komi32_loop data 0 n (komi32_lanes (komi32_seedInit n k))).1
      (komi32_loop data 0 n (komi32_lanes (komi32_seedInit n k))).2.1
      (komi32_fold (komi32_loop data 0 n (komi32_lanes (komi32_seedInit n k))).2.2)
      hl.2
    omega
  · simp only [if_neg h]
    have ht := komi32_tail_spec data 0 n (komi32_seedInit n k) (by omega)
    omega

/-! ### Mult32 round and loop lemmas -/

theorem mult32_hash8_i (table data : Nat → Nat) (p : Nat) (st : MState) :
    (mult32_hash8 table data p st).i = st.i + 1 := rfl

theorem mult32_hash8_tab (table data : Nat → Nat) (p : Nat) (st : MState) :
    (mult32_hash8 table data p st).tab = st.tab ++ [st.i] := rfl

theorem mult32_hash8_bytes (table data : Nat → Nat) (p : Nat) (st : MState) :
    (mult32_hash8 table data p st).bytes = st.bytes ++ readIdx p 8 := rfl

theorem mult32_hashround_i (table : Nat → Nat) (st : MState) :
    (mult32_hashround table st).i = st.i + 1 := rfl

theorem mult32_hashround_tab (table : Nat → Nat) (st : MState) :
    (mult32_hashround table st).tab = st.tab ++ [st.i] := rfl

theorem mult32_hashround_bytes (table : Nat → Nat) (st : MState) :
    (mult32_hashround table st).bytes = st.bytes := rfl

theorem mult32_hash8_seq_i (table data : Nat → Nat) : ∀ c p (st : MState),
    (mult32_hash8_seq table data p c st).i = st.i + c := by
  intro c
  induction c with
  | zero => intro p st; rfl
  | succ c ih =>
    intro p st
    show (mult32_hash8_seq table data (p + 8) c (mult32_hash8 table data p st)).i = _
    rw [ih, mult32_hash8_i]
    omega

theorem mult32_hash8_seq_tab (table data : Nat → Nat) : ∀ c p (st : MState),
    (mult32_hash8_seq table data p c st).tab = st.tab ++ readIdx st.i c := by
  intro c
  induction c with
  | zero => intro p st; simp [mult32_hash8_seq, readIdx]
  | succ c ih =>
    intro p st
    show (mult32_hash8_seq table data (p + 8) c (mult32_hash8 table data p st)).tab = _
    rw [ih, mult32_hash8_tab, mult32_hash8_i, List.append_assoc, ← readIdx_one st.i,
      readIdx_append]
    rw [Nat.add_comm 1 c]

theorem mult32_hash8_seq_bytes (table data : Nat → Nat) : ∀ c p (st : MState),
    (mult32_hash8_seq table data p c st).bytes = st.bytes ++ readIdx p (8 * c) := by
  intro c
  induction c with
  | zero => intro p st; simp [mult32_hash8_seq, readIdx]
  | succ c ih =>
    intro p st
    show (mult32_hash8_seq table data (p + 8) c (mult32_hash8 table data p st)).bytes = _
    rw [ih, mult32_hash8_bytes, List.append_assoc, readIdx_append]
    have h8 : 8 + 8 * c = 8 * (c + 1) := by omega
    rw [h8]

theorem mult32_block_fields (table data : Nat → Nat) (p : Nat) (st : MState) :
    mult32_block table data p st =
      { hash := (mult32_hashround table (mult32_hash8_seq table data p 8 st)).hash
        i := (st.i + 9) &&& 127
        tab := st.tab ++ readIdx st.i 9
        bytes := st.bytes ++ readIdx p 64 } := by
  have e : mult32_block table data p st =
      { mult32_hashround table (mult32_hash8_seq table data p 8 st) with
        i := (mult32_hashround table (mult32_hash8_seq table data p 8 st)).i &&& 127 } := rfl
  rw [e]
  have hi : (mult32_hashround table (mult32_hash8_seq table data p 8 st)).i = st.i + 9 := by
    rw [mult32_hashround_i, mult32_hash8_seq_i]
  have htab : (mult32_hashround table (mult32_hash8_seq table data p 8 st)).tab =
      st.tab ++ readIdx st.i 9 := by
    rw [mult32_hashround_tab, mult32_hash8_seq_tab, mult32_hash8_seq_i,
      List.append_assoc, ← readIdx_one (st.i + 8), readIdx_append]
  have hbytes : (mult32_hashround table (mult32_hash8_seq table data p 8 st)).bytes =
      st.bytes ++ readIdx p 64 := by
    rw [mult32_hashround_bytes, mult32_hash8_seq_bytes]
  rw [MState.mk.injEq]
  exact ⟨rfl, by rw [hi], htab, hbytes⟩

theorem mult32_loop_spec (table data : Nat → Nat) : ∀ m p (st : MState),
    (mult32_loop table data p m st).1 = p + 64 * (m / 64) ∧
    (mult32_loop table data p m st).2.1 = m % 64 ∧
    (mult32_loop table data p m st).2.2.bytes = st.bytes ++ readIdx p (64 * (m / 64)) := by
  intro m
  induction m using Nat.strong_induction_on with
  | _ m ih =>
    intro p st
    rw [mult32_loop]
    by_cases h : 64 ≤ m
    · simp only [dif_pos h]
      obtain ⟨h1, h2, h3⟩ := ih (m - 64) (by omega) (p + 64) (mult32_block table data p st)
      refine ⟨by rw [h1]; omega, by rw [h2]; omega, ?_⟩
      rw [h3, mult32_block_fields]
      show st.bytes ++ readIdx p 64 ++ _ = _
      rw [List.append_assoc, readIdx_append]
      congr 2
      omega
    · simp only [dif_neg h]
      refine ⟨by omega, by omega, ?_⟩
      show st.bytes = _
      have : 64 * (m / 64) = 0 := by omega
      rw [this]
      simp [readIdx]

theorem mult32_loop_inv (table data : Nat → Nat) : ∀ m p (st : MState),
    st.i ≤ 128 → (∀ j ∈ st.tab, j < 137) →
    (mult32_loop table data p m st).2.2.i ≤ 128 ∧
    (∀ j ∈ (mult32_loop table data p m st).2.2.tab, j < 137) := by
  intro m
  induction m using Nat.strong_induction_on with
  | _ m ih =>
    intro p st hi htab
    rw [mult32_loop]
    by_cases h : 64 ≤ m
    · simp only [dif_pos h]
      refine ih (m - 64) (by omega) (p + 64) (mult32_block table data p st) ?_ ?_
      · rw [mult32_block_fields]
        show (st.i + 9) &&& 127 ≤ 128
        rw [and_127_eq_mod]
        omega
      · rw [mult32_block_fields]
        intro j hj
        show j < 137
        rcases List.mem_append.mp hj with hj | hj
        · exact htab j hj
        · obtain ⟨t, ht, rfl⟩ := (mem_readIdx st.i 9).mp hj
          omega
    · simp only [dif_neg h]
      exact ⟨hi, htab⟩

theorem mult32_tail_pos (table data : Nat → Nat) (p m : Nat) (st : MState) (h : m < 64) :
    (mult32_tail table data p m st).1 = p + 8 * (m / 8) ∧
    (mult32_tail table data p m st).2.1 = m % 8 ∧
    (mult32_tail table data p m st).2.2.bytes = st.bytes ++ readIdx p (8 * (m / 8)) := by
  have hc : (m >>> 3) &&& 7 = m / 8 := by
    rw [shiftRight_3_eq_div, and_7_eq_mod]
    omega
  by_cases h0 : (m >>> 3) &&& 7 = 0
  · rw [hc] at h0
    simp only [mult32_tail, hc, if_pos h0]
    refine ⟨by omega, by omega, ?_⟩
    show st.bytes = _
    rw [h0]
    simp [readIdx]
  · rw [hc] at h0
    simp only [mult32_tail, hc, if_neg h0]
    refine ⟨trivial, by rw [and_7_eq_mod], ?_⟩
    show (mult32_hashround table (mult32_hash8_seq table data p (m / 8) st)).bytes = _
    rw [mult32_hashround_bytes, mult32_hash8_seq_bytes]

theorem mult32_tail_inv (table data : Nat → Nat) (p m : Nat) (st : MState) (h : m < 64)
    (hi : st.i ≤ 128) (htab : ∀ j ∈ st.tab, j < 137) :
    (mult32_tail table data p m st).2.2.i ≤ 136 ∧
    (∀ j ∈ (mult32_tail table data p m st).2.2.tab, j < 137) := by
  have hc : (m >>> 3) &&& 7 = m / 8 := by
    rw [shiftRight_3_eq_div, and_7_eq_mod]
    omega
  by_cases h0 : (m >>> 3) &&& 7 = 0
  · simp only [mult32_tail, if_pos h0]
    exact ⟨by omega, htab⟩
  · rw [hc] at h0
    simp only [mult32_tail, hc, if_neg h0]
    have hi8 : (mult32_hash8_seq table data p (m / 8) st).i = st.i + m / 8 :=
      mult32_hash8_seq_i table data (m / 8) p st
    constructor
    · show (mult32_hashround table (mult32_hash8_seq table data p (m / 8) st)).i ≤ 136
      rw [mult32_hashround_i, hi8]
      omega
    · intro j hj
      replace hj : j ∈ (mult32_hashround table (mult32_hash8_seq table data p (m / 8) st)).tab := hj
      rw [mult32_hashround_tab, mult32_hash8_seq_tab, hi8] at hj
      rcases List.mem_append.mp hj with hj | hj
      · rcases List.mem_append.mp hj with hj | hj
        · exact htab j hj
        · obtain ⟨t, ht, rfl⟩ := (mem_readIdx st.i (m / 8)).mp hj
          omega
      · simp only [List.mem_singleton] at hj
        omega

theorem mult32_finalize_tab (table data : Nat → Nat) (p m : Nat) (st : MState) :
    (mult32_finalize table data p m st).tab = st.tab ++ [st.i] := rfl

theorem mult32_finalize_bytes (table data : Nat → Nat) (p m : Nat) (st : MState) :
    (mult32_finalize table data p m st).bytes = st.bytes ++ readIdx p m := rfl

/-! ### Table initialisation lemmas -/

theorem xorshiftOutputs_length : ∀ c st, (xorshiftOutputs c st).length = c := by
  intro c
  induction c with
  | zero => intro st; rfl
  | succ c ih => intro st; simp [xorshiftOutputs, ih]

theorem mult32_random_list_length : mult32_random_list.length = RANDOM_LENGTH := by
  rw [mult32_random_list, xorshiftOutputs_length]

theorem Mult32_init_zero : Mult32_init (fun _ => 0) = mult32_random := by
  funext j
  by_cases h : j < RANDOM_LENGTH
  · simp [Mult32_init, h]
  · simp only [Mult32_init, if_neg h]
    rw [mult32_random, List.getD_eq_default]
    rw [mult32_random_list_length]
    omega

/-- The process state after the one-time initialisation has run. -/
def procInited : Mult32Proc := { oneTimeDone := true, table := mult32_random }

theorem runCall_inv (pr : Mult32Proc) (c : HashCall)
    (h : pr = procStart ∨ pr = procInited) :
    runCall pr c = procStart ∨ runCall pr c = procInited := by
  cases c with
  | komi data len seed => exact h
  | mult data len seed =>
    right
    rcases h with rfl | rfl
    · show ({ oneTimeDone := true, table := Mult32_init procStart.table } : Mult32Proc) = _
      rw [procInited, procStart, Mult32_init_zero]
    · rfl
  | combo data len seed =>
    show (Combo32_call pr data len seed).2 = _ ∨ (Combo32_call pr data len seed).2 = _
    by_cases hl : len < 64
    · simp only [Combo32_call, if_pos hl]
      exact h
    · simp only [Combo32_call, if_neg hl]
      right
      rcases h with rfl | rfl
      · show ({ oneTimeDone := true, table := Mult32_init procStart.table } : Mult32Proc) = _
        rw [procInited, procStart, Mult32_init_zero]
      · rfl

theorem runCalls_inv : ∀ (cs : List HashCall) (pr : Mult32Proc),
    pr = procStart ∨ pr = procInited →
    runCalls pr cs = procStart ∨ runCalls pr cs = procInited := by
  intro cs
  induction cs with
  | nil => intro pr h; exact h
  | cons c cs ih => intro pr h; exact ih (runCall pr c) (runCall_inv pr c h)

theorem Mult32_call_pure (pr : Mult32Proc) (h : pr = procStart ∨ pr = procInited)
    (data : Nat → Nat) (n k : Nat) :
    Mult32_call pr data n k = (Mult32 data n k, procInited) := by
  rcases h with rfl | rfl
  · show (Mult32_impl (Mult32_init procStart.table) data n (k % 2 ^ 64),
      ({ oneTimeDone := true, table := Mult32_init procStart.table } : Mult32Proc)) = _
    rw [procStart, procInited, Mult32_init_zero, Mult32]
  · rfl

/-! ### Claim theorems -/

/-- C1: the dispatcher `Combo32(s, len, k)` returns exactly `Komi32(s, len, k)`
when `len < 64` and exactly `Mult32(s, len, k)` when `len ≥ 64`. -/
theorem Combo32_dispatch_equiv (data : Nat → Nat) (n k : Nat) :
    (n < 64 → Combo32 data n k = Komi32 data n k) ∧
    (64 ≤ n → Combo32 data n k = Mult32 data n k) := by
  constructor
  · intro h
    rw [Combo32, if_pos h]
  · intro h
    rw [Combo32, if_neg (by omega)]

/-- C1 witness: the dispatch equivalence at concrete inputs on both sides of
the 64-byte boundary. -/
theorem Combo32_dispatch_equiv_w :
    Combo32 (fun _ => 0) 3 7 = Komi32 (fun _ => 0) 3 7 ∧
    Combo32 (fun _ => 0) 64 7 = Mult32 (fun _ => 0) 64 7 :=
  ⟨(Combo32_dispatch_equiv (fun _ => 0) 3 7).1 (by norm_num),
   (Combo32_dispatch_equiv (fun _ => 0) 64 7).2 (by norm_num)⟩

/-- C2: no hidden cross-call state.  Starting from process startup, after any
sequence of prior hash calls, a dispatcher call, a direct Mult32 call and a
direct Komi32 call on `(s, k)` all return the pure values, and the lazily
built random table's contents equal the pure function of the fixed embedded
seed constant (Komi32 is a pure function of its arguments in this model, so
its determinism is definitional). -/
theorem hash_no_hidden_state (prior : List HashCall) (data : Nat → Nat) (n k : Nat) :
    (Combo32_call (runCalls procStart prior) data n k).1 = Combo32 data n k ∧
    (Mult32_call (runCalls procStart prior) data n k).1 = Mult32 data n k ∧
    (Mult32_call (runCalls procStart prior) data n k).2.table = mult32_random := by
  have hinv := runCalls_inv prior procStart (Or.inl rfl)
  have hm := Mult32_call_pure (runCalls procStart prior) hinv data n k
  refine ⟨?_, by rw [hm], by rw [hm]; rfl⟩
  by_cases hl : n < 64
  · simp only [Combo32_call, if_pos hl, Combo32]
  · simp only [Combo32_call, if_neg hl]
    rw [hm, Combo32, if_neg hl]

/-- C6: on the empty input, Komi32 mixes `seed XOR 0` into (Seed1, Seed5) via
the two seed-hash rounds, runs exactly two parameterless mixing rounds (each
a 32×32→64 multiply of Seed1 by Seed5, high half added into Seed5, then
Seed1 = Seed5 XOR low half) and returns Seed1, reading no input byte. -/
theorem komi32_empty_input_spec (data : Nat → Nat) (k : Nat) :
    Komi32 data 0 k =
      (komi32_hashround (komi32_hashround (komi32_seedInit 0 (k % 2 ^ 64)))).s1 ∧
    (komi32_run data 0 (k % 2 ^ 64)).reads = [] ∧
    komi32_seedInit 0 (k % 2 ^ 64) =
      komi32_seedhash4 (((k % 2 ^ 64) ^^^ 0) >>> 32 % 2 ^ 32)
        (komi32_seedhash4 (((k % 2 ^ 64) ^^^ 0) % 2 ^ 32)
          { s1 := 0xC5A308D3, s5 := 0xB8D01377, reads := [] }) ∧
    (∀ st : KState, komi32_hashround st =
      { st with
        s5 := (st.s5 + ((st.s1 * st.s5) >>> 32) % 2 ^ 32) % 2 ^ 32
        s1 := ((st.s5 + ((st.s1 * st.s5) >>> 32) % 2 ^ 32) % 2 ^ 32) ^^^
          ((st.s1 * st.s5) % 2 ^ 32) }) := by
    refine ⟨rfl, ?_, rfl, fun st => rfl⟩
    show (komi32_hashround (komi32_hashround (komi32_seedInit 0 (k % 2 ^ 64)))).reads = []
    rfl

theorem komi32_hashround_reads (st : KState) :
    (komi32_hashround st).reads = st.reads := rfl

/-- C3: for `1 ≤ n < 64`, Komi32 reaches finalization at an offset `p` and
remaining length `rem < 8` with `p + rem = n`; the padding bit is derived
from the top bit of the last byte of the whole message, `byte (n-1)` — also
when `rem = 0`, in which case that byte was consumed earlier; with 4–7 tail
bytes a 4-byte word is XORed into Seed1 and the `fb`-padded remaining 0–3
bytes into Seed5, with 0–3 tail bytes only the `fb`-padded partial word goes
into Seed1; two parameterless rounds follow and Seed1 is returned; and every
byte offset read by finalization lies in `[0, n)`. -/
theorem komi32_finalization_spec (data : Nat → Nat) (n k : Nat)
    (h1 : 1 ≤ n) (h2 : n < 64) :
    ∃ p rem st, komi32_pretail data n k = (p, rem, st) ∧
      p + rem = n ∧ rem < 8 ∧
      komi32_run data n k = komi32_finalize data p rem st ∧
      komi32_finalize data p rem st =
        komi32_finalize_fb data p rem (1 <<< (byteAt data (n - 1) >>> 7)) st ∧
      (4 ≤ rem →
        komi32_finalize data p rem st =
          komi32_hashround (komi32_hashround
            { s1 := st.s1 ^^^ GET_U32 data p
              s5 := st.s5 ^^^ komi32_final_bytes data (p + 4) (rem - 4)
                      (1 <<< (byteAt data (n - 1) >>> 7))
              reads := st.reads ++ [n - 1] ++ readIdx p 4 ++ readIdx (p + 4) (rem - 4) })) ∧
      (rem < 4 →
        komi32_finalize data p rem st =
          komi32_hashround (komi32_hashround
            { s1 := st.s1 ^^^ komi32_final_bytes data p rem
                      (1 <<< (byteAt data (n - 1) >>> 7))
              s5 := st.s5
              reads := st.reads ++ [n - 1] ++ readIdx p rem })) ∧
      (∀ j ∈ (komi32_run data n k).reads, j ∈ st.reads ∨ j < n) ∧
      Komi32_impl data n k = (komi32_run data n k).s1 := by
  obtain ⟨hsum, hrem⟩ := komi32_pretail_spec data n k
  have hm : (komi32_pretail data n k).1 + (komi32_pretail data n k).2.1 - 1 = n - 1 := by
    omega
  have hrun : komi32_run data n k =
      komi32_finalize data (komi32_pretail data n k).1 (komi32_pretail data n k).2.1
        (komi32_pretail data n k).2.2 := by
    rw [komi32_run]
    simp only [if_neg (by omega : ¬ n = 0)]
  refine ⟨(komi32_pretail data n k).1, (komi32_pretail data n k).2.1,
    (komi32_pretail data n k).2.2, rfl, hsum, hrem, hrun, ?_, ?_, ?_, ?_, rfl⟩
  · rw [komi32_finalize, hm]
  · intro h4
    rw [komi32_finalize]
    simp only [komi32_finalize_fb, if_pos h4]
    rw [hm]
  · intro h4
    rw [komi32_finalize]
    simp only [komi32_finalize_fb, if_neg (by omega : ¬ 4 ≤ (komi32_pretail data n k).2.1)]
    rw [hm]
  · intro j hj
    rw [hrun, komi32_finalize] at hj
    by_cases h4 : 4 ≤ (komi32_pretail data n k).2.1
    · simp only [komi32_finalize_fb, if_pos h4, komi32_hashround_reads] at hj
      rcases List.mem_append.mp hj with hj | hj
      · rcases List.mem_append.mp hj with hj | hj
        · rcases List.mem_append.mp hj with hj | hj
          · exact Or.inl hj
          · simp only [List.mem_singleton] at hj
            right
            omega
        · obtain ⟨t, ht, rfl⟩ := (mem_readIdx _ _).mp hj
          right
          omega
      · obtain ⟨t, ht, rfl⟩ := (mem_readIdx _ _).mp hj
        right
        omega
    · simp only [komi32_finalize_fb, if_neg h4, komi32_hashround_reads] at hj
      rcases List.mem_append.mp hj with hj | hj
      · rcases List.mem_append.mp hj with hj | hj
        · exact Or.inl hj
        · simp only [List.mem_singleton] at hj
          right
          omega
      · obtain ⟨t, ht, rfl⟩ := (mem_readIdx _ _).mp hj
        right
        omega

/-- C3 witness: the finalization specification instantiated at a one-byte
message with seed 0. -/
theorem komi32_finalization_spec_w :
    ∃ p rem st, komi32_pretail (fun _ => 0) 1 0 = (p, rem, st) ∧
      p + rem = 1 ∧ rem < 8 ∧
      komi32_run (fun _ => 0) 1 0 = komi32_finalize (fun _ => 0) p rem st ∧
      komi32_finalize (fun _ => 0) p rem st =
        komi32_finalize_fb (fun _ => 0) p rem
          (1 <<< (byteAt (fun _ => 0) 0 >>> 7)) st ∧
      (4 ≤ rem →
        komi32_finalize (fun _ => 0) p rem st =
          komi32_hashround (komi32_hashround
            { s1 := st.s1 ^^^ GET_U32 (fun _ => 0) p
              s5 := st.s5 ^^^ komi32_final_bytes (fun _ => 0) (p + 4) (rem - 4)
                      (1 <<< (byteAt (fun _ => 0) 0 >>> 7))
              reads := st.reads ++ [0] ++ readIdx p 4 ++ readIdx (p + 4) (rem - 4) })) ∧
      (rem < 4 →
        komi32_finalize (fun _ => 0) p rem st =
          komi32_hashround (komi32_hashround
            { s1 := st.s1 ^^^ komi32_final_bytes (fun _ => 0) p rem
                      (1 <<< (byteAt (fun _ => 0) 0 >>> 7))
              s5 := st.s5
              reads := st.reads ++ [0] ++ readIdx p rem })) ∧
      (∀ j ∈ (komi32_run (fun _ => 0) 1 0).reads, j ∈ st.reads ∨ j < 1) ∧
      Komi32_impl (fun _ => 0) 1 0 = (komi32_run (fun _ => 0) 1 0).s1 :=
  komi32_finalization_spec (fun _ => 0) 1 0 (by norm_num) (by norm_num)

/-- C7 counterexample: the transient lanes Seed2–Seed4 and Seed6–Seed8 are
derived from Seed1/Seed5 by XOR with the six constants of
`komi32_laneConsts` — six distinct constants, not eight as claimed; six
lanes admit only six XOR constants. -/
theorem komi32_six_lane_consts_not_eight :
    komi32_laneConsts.length = 6 ∧
    ¬ komi32_laneConsts.length = 8 ∧
    komi32_laneConsts.Nodup ∧
    komi32_lanes { s1 := 0xC5A308D3, s5 := 0xB8D01377, reads := [] } =
      { s1 := 0xC5A308D3
        s2 := komi32_laneConsts.getD 0 0 ^^^ 0xC5A308D3
        s3 := komi32_laneConsts.getD 1 0 ^^^ 0xC5A308D3
        s4 := komi32_laneConsts.getD 2 0 ^^^ 0xC5A308D3
        s5 := 0xB8D01377
        s6 := komi32_laneConsts.getD 3 0 ^^^ 0xB8D01377
        s7 := komi32_laneConsts.getD 4 0 ^^^ 0xB8D01377
        s8 := komi32_laneConsts.getD 5 0 ^^^ 0xB8D01377
        reads := [] } :=
  ⟨rfl, by decide, by decide, rfl⟩

/-- C7 (amended): for `n ≥ 32` the short hasher derives its transient lanes
Seed2–Seed4 and Seed6–Seed8 from Seed1/Seed5 by XOR with six distinct fixed
constants, and after the last full 32-byte block folds all eight lanes back
to two via `Seed5 ^= Seed6^Seed7^Seed8` and `Seed1 ^= Seed2^Seed3^Seed4`,
so that the tail phase receives exactly the two-lane state (Seed1, Seed5). -/
theorem komi32_bulk_lane_derivation (data : Nat → Nat) (n k : Nat) (h : 32 ≤ n) :
    komi32_laneConsts.Nodup ∧
    komi32_laneConsts.length = 6 ∧
    (∀ st : KState,
      komi32_lanes st =
        { s1 := st.s1
          s2 := komi32_laneConsts.getD 0 0 ^^^ st.s1
          s3 := komi32_laneConsts.getD 1 0 ^^^ st.s1
          s4 := komi32_laneConsts.getD 2 0 ^^^ st.s1
          s5 := st.s5
          s6 := komi32_laneConsts.getD 3 0 ^^^ st.s5
          s7 := komi32_laneConsts.getD 4 0 ^^^ st.s5
          s8 := komi32_laneConsts.getD 5 0 ^^^ st.s5
          reads := st.reads }) ∧
    (∀ st : K8State, komi32_fold st =
      { s1 := st.s1 ^^^ (st.s2 ^^^ st.s3 ^^^ st.s4)
        s5 := st.s5 ^^^ (st.s6 ^^^ st.s7 ^^^ st.s8)
        reads := st.reads }) ∧
    komi32_pretail data n k =
      komi32_tail data (komi32_loop data 0 n (komi32_lanes (komi32_seedInit n k))).1
        (komi32_loop data 0 n (komi32_lanes (komi32_seedInit n k))).2.1
        (komi32_fold (komi32_loop data 0 n (komi32_lanes (komi32_seedInit n k))).2.2) := by
  refine ⟨by decide, rfl, fun st => rfl, fun st => rfl, ?_⟩
  rw [komi32_pretail]
  simp only [if_pos h]

/-- C7 witness: the amended lane-derivation theorem instantiated at a
32-byte input. -/
theorem komi32_bulk_lane_derivation_w : komi32_laneConsts.Nodup :=
  (komi32_bulk_lane_derivation (fun _ => 0) 32 0 (by norm_num)).1

theorem mult32_valhash8_i (table : Nat → Nat) (x : Nat) (st : MState) :
    (mult32_valhash8 table x st).i = st.i + 1 := rfl

theorem mult32_valhash8_tab (table : Nat → Nat) (x : Nat) (st : MState) :
    (mult32_valhash8 table x st).tab = st.tab ++ [st.i] := rfl

theorem mult32_valhash8_bytes (table : Nat → Nat) (x : Nat) (st : MState) :
    (mult32_valhash8 table x st).bytes = st.bytes := rfl

theorem mult32_pipeline_tab_lt (table data : Nat → Nat) (p m : Nat) (st : MState)
    (hi : st.i ≤ 128) (htab : ∀ j ∈ st.tab, j < 137) :
    ∀ j ∈ (mult32_finalize table data
        (mult32_tail table data (mult32_loop table data p m st).1
          (mult32_loop table data p m st).2.1 (mult32_loop table data p m st).2.2).1
        (mult32_tail table data (mult32_loop table data p m st).1
          (mult32_loop table data p m st).2.1 (mult32_loop table data p m st).2.2).2.1
        (mult32_tail table data (mult32_loop table data p m st).1
          (mult32_loop table data p m st).2.1 (mult32_loop table data p m st).2.2).2.2).tab,
      j < 137 := by
  have hloop := mult32_loop_inv table data m p st hi htab
  have hm : (mult32_loop table data p m st).2.1 < 64 := by
    have := (mult32_loop_spec table data m p st).2.1
    omega
  have htail := mult32_tail_inv table data (mult32_loop table data p m st).1
    (mult32_loop table data p m st).2.1 (mult32_loop table data p m st).2.2 hm
    hloop.1 hloop.2
  intro j hj
  rw [mult32_finalize_tab] at hj
  rcases List.mem_append.mp hj with hj | hj
  · exact htail.2 j hj
  · simp only [List.mem_singleton] at hj
    subst hj
    have := htail.1
    omega

/-- C5: every read of the random table in a Mult32 call, for every input
length and seed, uses an index strictly below RANDOM_LENGTH = 137; the index
can pass the masked bound 127 only by at most the 9 slack entries before
being re-masked. -/
theorem mult32_table_index_lt (data : Nat → Nat) (n k : Nat) :
    ∀ j ∈ (mult32_run mult32_random data n k).tab, j < RANDOM_LENGTH := by
  intro j hj
  show j < 137
  refine mult32_pipeline_tab_lt mult32_random data 0 n
    (mult32_valhash8 mult32_random
      ({ hash := k ^^^ n, i := ((n >>> 6) ^^^ n) &&& (RANDOM_POWER - 1),
         tab := [], bytes := [] } : MState).hash
      { hash := k ^^^ n, i := ((n >>> 6) ^^^ n) &&& (RANDOM_POWER - 1),
        tab := [], bytes := [] }) ?_ ?_ j hj
  · rw [mult32_valhash8_i]
    show (((n >>> 6) ^^^ n) &&& (RANDOM_POWER - 1)) + 1 ≤ 128
    have h127 : RANDOM_POWER - 1 = 127 := rfl
    rw [h127, and_127_eq_mod]
    omega
  · intro x hx
    rw [mult32_valhash8_tab] at hx
    simp only [List.nil_append, List.mem_singleton] at hx
    subst hx
    show ((n >>> 6) ^^^ n) &&& (RANDOM_POWER - 1) < 137
    have h127 : RANDOM_POWER - 1 = 127 := rfl
    rw [h127, and_127_eq_mod]
    omega

/-- C5 witness: the table-index bound applied to the first index read by the
empty-input call. -/
theorem mult32_table_index_lt_w : (0 : Nat) < RANDOM_LENGTH := by
  apply mult32_table_index_lt (fun _ => 0) 0 0 0
  have hl : mult32_loop mult32_random (fun _ => 0) 0 0
      (mult32_valhash8 mult32_random
        ({ hash := 0 ^^^ 0, i := (((0 : Nat) >>> 6) ^^^ 0) &&& (RANDOM_POWER - 1),
           tab := [], bytes := [] } : MState).hash
        { hash := 0 ^^^ 0, i := (((0 : Nat) >>> 6) ^^^ 0) &&& (RANDOM_POWER - 1),
          tab := [], bytes := [] }) =
      (0, 0,
        mult32_valhash8 mult32_random
          ({ hash := 0 ^^^ 0, i := (((0 : Nat) >>> 6) ^^^ 0) &&& (RANDOM_POWER - 1),
             tab := [], bytes := [] } : MState).hash
          { hash := 0 ^^^ 0, i := (((0 : Nat) >>> 6) ^^^ 0) &&& (RANDOM_POWER - 1),
            tab := [], bytes := [] }) := by
    rw [mult32_loop, dif_neg (by omega : ¬ (64 : Nat) ≤ 0)]
  show (0 : Nat) ∈ (mult32_finalize mult32_random (fun _ => 0) _ _ _).tab
  rw [hl]
  rw [mult32_finalize_tab]
  show (0 : Nat) ∈ (mult32_tail mult32_random (fun _ => 0) 0 0
    (mult32_valhash8 mult32_random
      ({ hash := 0 ^^^ 0, i := (((0 : Nat) >>> 6) ^^^ 0) &&& (RANDOM_POWER - 1),
         tab := [], bytes := [] } : MState).hash
      { hash := 0 ^^^ 0, i := (((0 : Nat) >>> 6) ^^^ 0) &&& (RANDOM_POWER - 1),
        tab := [], bytes := [] })).2.2.tab ++ [_]
  decide

/-- C4: for `n ≥ 64`, Mult32 initialises the accumulator to `seed XOR n` and
the table index to `((n >> 6) XOR n) & 127`, performs one initial
value-mixing round of the accumulator against the next table entry, and each
bulk-loop iteration (while ≥ 64 bytes remain) performs exactly eight 8-byte
block rounds followed by exactly one parameterless round, re-masks the index
with `& 127` (the index having advanced by 9), and subtracts 64 from the
remaining length. -/
theorem mult32_init_and_bulk_spec (data : Nat → Nat) (n k : Nat) (h : 64 ≤ n) :
    mult32_run mult32_random data n k =
      (let st0 : MState :=
        { hash := k ^^^ n, i := ((n >>> 6) ^^^ n) &&& 127, tab := [], bytes := [] }
       let st1 := mult32_valhash8 mult32_random st0.hash st0
       let t := mult32_loop mult32_random data 0 n st1
       let u := mult32_tail mult32_random data t.1 t.2.1 t.2.2
       mult32_finalize mult32_random data u.1 u.2.1 u.2.2) ∧
    (∀ p m (st : MState), 64 ≤ m →
        mult32_loop mult32_random data p m st =
          mult32_loop mult32_random data (p + 64) (m - 64)
            (mult32_block mult32_random data p st)) ∧
    (∀ p (st : MState), mult32_block mult32_random data p st =
        { hash := (mult32_hashround mult32_random
            (mult32_hash8_seq mult32_random data p 8 st)).hash
          i := (st.i + 9) &&& 127
          tab := st.tab ++ readIdx st.i 9
          bytes := st.bytes ++ readIdx p 64 }) := by
  refine ⟨rfl, ?_, fun p st => mult32_block_fields mult32_random data p st⟩
  intro p m st hm
  rw [mult32_loop]
  simp only [dif_pos hm]

/-- C4 witness: one bulk-loop unfolding at the 64-byte input boundary. -/
theorem mult32_init_and_bulk_spec_w :
    mult32_loop mult32_random (fun _ => 0) 0 64
      { hash := 0, i := 0, tab := [], bytes := [] } =
      mult32_loop mult32_random (fun _ => 0) (0 + 64) (64 - 64)
        (mult32_block mult32_random (fun _ => 0) 0
          { hash := 0, i := 0, tab := [], bytes := [] }) :=
  (mult32_init_and_bulk_spec (fun _ => 0) 64 5 (by norm_num)).2.1 0 64
    { hash := 0, i := 0, tab := [], bytes := [] } (by norm_num)

theorem mult32_pipeline_bytes (table data : Nat → Nat) (p m : Nat) (st : MState) :
    (mult32_finalize table data
        (mult32_tail table data (mult32_loop table data p m st).1
          (mult32_loop table data p m st).2.1 (mult32_loop table data p m st).2.2).1
        (mult32_tail table data (mult32_loop table data p m st).1
          (mult32_loop table data p m st).2.1 (mult32_loop table data p m st).2.2).2.1
        (mult32_tail table data (mult32_loop table data p m st).1
          (mult32_loop table data p m st).2.1 (mult32_loop table data p m st).2.2).2.2).bytes
      = st.bytes ++ readIdx p m := by
  obtain ⟨hl1, hl2, hl3⟩ := mult32_loop_spec table data m p st
  have hm : (mult32_loop table data p m st).2.1 < 64 := by omega
  obtain ⟨ht1, ht2, ht3⟩ := mult32_tail_pos table data (mult32_loop table data p m st).1
    (mult32_loop table data p m st).2.1 (mult32_loop table data p m st).2.2 hm
  rw [mult32_finalize_bytes, ht3, hl3, ht1, ht2, hl1, hl2,
    List.append_assoc, List.append_assoc, readIdx_append, readIdx_append]
  have e2 : 64 * (m / 64) + (8 * (m % 64 / 8) + m % 64 % 8) = m := by omega
  rw [e2]

/-- C10: Mult32 is total and well defined for every input length `n ≥ 0`,
including `0 ≤ n < 64`: the byte offsets it reads are exactly `[0, n)` — the
bulk loop, tail switch and finalization together consume every byte once and
never touch an offset outside the buffer (for `n = 0`, no byte at all) — and
it returns a 32-bit value. -/
theorem mult32_total_and_in_bounds (data : Nat → Nat) (n k : Nat) :
    (mult32_run mult32_random data n k).bytes = List.range n ∧
    Mult32_impl mult32_random data n k < 2 ^ 32 ∧
    Mult32 data n k < 2 ^ 32 := by
  refine ⟨?_, komi32_seedhash4_s1_lt _ _, komi32_seedhash4_s1_lt _ _⟩
  have e := mult32_pipeline_bytes mult32_random data 0 n
    (mult32_valhash8 mult32_random
      ({ hash := k ^^^ n, i := ((n >>> 6) ^^^ n) &&& (RANDOM_POWER - 1),
         tab := [], bytes := [] } : MState).hash
      { hash := k ^^^ n, i := ((n >>> 6) ^^^ n) &&& (RANDOM_POWER - 1),
        tab := [], bytes := [] })
  rw [mult32_valhash8_bytes] at e
  show (mult32_finalize mult32_random data _ _ _).bytes = List.range n
  rw [e]
  show ([] : List Nat) ++ readIdx 0 n = List.range n
  rw [List.nil_append, readIdx_zero_off]

theorem readIdx_length (p c : Nat) : (readIdx p c).length = c := by
  simp [readIdx]

theorem mult32_loop_tab_len (table data : Nat → Nat) : ∀ m p (st : MState),
    (mult32_loop table data p m st).2.2.tab.length = st.tab.length + 9 * (m / 64) := by
  intro m
  induction m using Nat.strong_induction_on with
  | _ m ih =>
    intro p st
    rw [mult32_loop]
    by_cases h : 64 ≤ m
    · simp only [dif_pos h]
      rw [ih (m - 64) (by omega) (p + 64) (mult32_block table data p st),
        mult32_block_fields]
      show (st.tab ++ readIdx st.i 9).length + 9 * ((m - 64) / 64) = _
      rw [List.length_append, readIdx_length]
      omega
    · simp only [dif_neg h]
      have h0 : m / 64 = 0 := by omega
      rw [h0]
      omega

theorem mult32_tail_tab_len (table data : Nat → Nat) (p m : Nat) (st : MState)
    (h : m < 64) :
    (mult32_tail table data p m st).2.2.tab.length =
      st.tab.length + (if m / 8 = 0 then 0 else m / 8 + 1) := by
  have hc : (m >>> 3) &&& 7 = m / 8 := by
    rw [shiftRight_3_eq_div, and_7_eq_mod]
    omega
  by_cases h0 : m / 8 = 0
  · simp only [mult32_tail, hc, if_pos h0]
    omega
  · simp only [mult32_tail, hc, if_neg h0]
    rw [mult32_hashround_tab, mult32_hash8_seq_tab, List.length_append,
      List.length_append, readIdx_length]
    simp only [List.length_singleton]
    omega

theorem mult32_run_tab_len (table data : Nat → Nat) (n k : Nat) :
    (mult32_run table data n k).tab.length =
      2 + 9 * (n / 64) + (if (n % 64) / 8 = 0 then 0 else (n % 64) / 8 + 1) := by
  have hloop := mult32_loop_tab_len table data n 0
    (mult32_valhash8 table
      ({ hash := k ^^^ n, i := ((n >>> 6) ^^^ n) &&& (RANDOM_POWER - 1),
         tab := [], bytes := [] } : MState).hash
      { hash := k ^^^ n, i := ((n >>> 6) ^^^ n) &&& (RANDOM_POWER - 1),
        tab := [], bytes := [] })
  have hm : (mult32_loop table data 0 n
      (mult32_valhash8 table
        ({ hash := k ^^^ n, i := ((n >>> 6) ^^^ n) &&& (RANDOM_POWER - 1),
           tab := [], bytes := [] } : MState).hash
        { hash := k ^^^ n, i := ((n >>> 6) ^^^ n) &&& (RANDOM_POWER - 1),
          tab := [], bytes := [] })).2.1 = n % 64 :=
    (mult32_loop_spec table data n 0 _).2.1
  have htail := mult32_tail_tab_len table data
    (mult32_loop table data 0 n
      (mult32_valhash8 table
        ({ hash := k ^^^ n, i := ((n >>> 6) ^^^ n) &&& (RANDOM_POWER - 1),
           tab := [], bytes := [] } : MState).hash
        { hash := k ^^^ n, i := ((n >>> 6) ^^^ n) &&& (RANDOM_POWER - 1),
          tab := [], bytes := [] })).1
    (mult32_loop table data 0 n
      (mult32_valhash8 table
        ({ hash := k ^^^ n, i := ((n >>> 6) ^^^ n) &&& (RANDOM_POWER - 1),
           tab := [], bytes := [] } : MState).hash
        { hash := k ^^^ n, i := ((n >>> 6) ^^^ n) &&& (RANDOM_POWER - 1),
          tab := [], bytes := [] })).2.1
    (mult32_loop table data 0 n
      (mult32_valhash8 table
        ({ hash := k ^^^ n, i := ((n >>> 6) ^^^ n) &&& (RANDOM_POWER - 1),
           tab := [], bytes := [] } : MState).hash
        { hash := k ^^^ n, i := ((n >>> 6) ^^^ n) &&& (RANDOM_POWER - 1),
          tab := [], bytes := [] })).2.2
    (by rw [hm]; omega)
  rw [hm] at htail
  show (mult32_finalize table data _ _ _).tab.length = _
  rw [mult32_finalize_tab, List.length_append, List.length_singleton, hm, htail, hloop,
    mult32_valhash8_tab, List.nil_append, List.length_singleton]
  generalize (if n % 64 / 8 = 0 then 0 else n % 64 / 8 + 1) = q
  omega

/-- A fixed Mult32 state used as the starting point of concrete tail-phase
evaluations. -/
def mstate0 : MState := { hash := 0, i := 0, tab := [], bytes := [] }

/-- C8 counterexample: when the remaining length after the bulk loop is in
0..7 (here 5, and in the full run of a 64-byte input, 0) the tail switch hits
case 0 and performs no round at all — no block rounds and, contrary to the
claim, no parameterless round either; the full 64-byte run reads 11 table
entries, not the 12 the claimed `(r >> 3) & 7` blocks plus one parameterless
round would give. -/
theorem mult32_short_tail_skips_round :
    mult32_tail mult32_random (fun _ => 0) 64 5 mstate0 = (64, 5, mstate0) ∧
    (((5 : Nat) >>> 3) &&& 7) + 1 = 1 ∧
    (mult32_run mult32_random (fun _ => 0) 64 0).tab.length = 11 ∧
    ¬ (mult32_run mult32_random (fun _ => 0) 64 0).tab.length =
        1 + 9 * (64 / 64) + ((((64 % 64) >>> 3) &&& 7) + 1) + 1 := by
  have hlen := mult32_run_tab_len mult32_random (fun _ => 0) 64 0
  norm_num at hlen
  exact ⟨rfl, rfl, hlen, by rw [hlen]; norm_num⟩

/-- C8 (amended): in Mult32's tail phase with remaining length `r < 64`, if
`8 ≤ r` the hasher consumes exactly `(r >> 3) & 7` further 8-byte block
rounds followed by one parameterless round (together `(r >> 3) & 7 + 1`
consecutive table entries) and reduces the remaining length to `r & 7`; if
`r < 8` the tail switch does nothing at all; in both cases the remaining
length left for finalization is below 8. -/
theorem mult32_tail_round_structure (data : Nat → Nat) (p r : Nat) (st : MState)
    (h : r < 64) :
    (mult32_tail mult32_random data p r st).2.1 < 8 ∧
    (8 ≤ r →
      mult32_tail mult32_random data p r st =
        (p + 8 * ((r >>> 3) &&& 7), r &&& 7,
         mult32_hashround mult32_random
           (mult32_hash8_seq mult32_random data p ((r >>> 3) &&& 7) st)) ∧
      (mult32_tail mult32_random data p r st).2.2.tab =
        st.tab ++ readIdx st.i (((r >>> 3) &&& 7) + 1)) ∧
    (r < 8 → mult32_tail mult32_random data p r st = (p, r, st)) := by
  have hc : (r >>> 3) &&& 7 = r / 8 := by
    rw [shiftRight_3_eq_div, and_7_eq_mod]
    omega
  refine ⟨?_, ?_, ?_⟩
  · obtain ⟨-, h2, -⟩ := mult32_tail_pos mult32_random data p r st h
    rw [h2]
    omega
  · intro h8
    have h0 : ¬ (r >>> 3) &&& 7 = 0 := by rw [hc]; omega
    refine ⟨by simp only [mult32_tail, if_neg h0], ?_⟩
    simp only [mult32_tail, if_neg h0]
    rw [mult32_hashround_tab, mult32_hash8_seq_tab, mult32_hash8_seq_i,
      List.append_assoc, ← readIdx_one (st.i + ((r >>> 3) &&& 7)), readIdx_append]
  · intro h8
    have h0 : (r >>> 3) &&& 7 = 0 := by rw [hc]; omega
    simp only [mult32_tail, if_pos h0]

/-- C8 witness: the amended tail structure applied at remaining length 10. -/
theorem mult32_tail_round_structure_w :
    (mult32_tail mult32_random (fun _ => 0) 0 10 mstate0).2.1 < 8 :=
  (mult32_tail_round_structure (fun _ => 0) 0 10 mstate0 (by norm_num)).1

theorem xorshiftIterFrom_succ : ∀ (j : Nat) (st : Nat × Nat),
    xorshiftIterFrom st (j + 1) = (Xorshift128p (xorshiftIterFrom st j)).2 := by
  intro j
  induction j with
  | zero => intro st; rfl
  | succ j ih =>
    intro st
    show xorshiftIterFrom (Xorshift128p st).2 (j + 1) = _
    rw [ih (Xorshift128p st).2]
    rfl

theorem xorshiftOutputs_getD : ∀ (c j : Nat) (st : Nat × Nat), j < c →
    (xorshiftOutputs c st).getD j 0 = (Xorshift128p (xorshiftIterFrom st j)).1 := by
  intro c
  induction c with
  | zero => intro j st h; omega
  | succ c ih =>
    intro j st h
    cases j with
    | zero => rfl
    | succ j =>
      show (xorshiftOutputs c (Xorshift128p st).2).getD j 0 = _
      rw [ih j (Xorshift128p st).2 (by omega)]
      rfl

theorem Xorshift128p_out_eq (st : Nat × Nat) :
    (Xorshift128p st).1 = ((Xorshift128p st).2.1 + (Xorshift128p st).2.2) % 2 ^ 64 := by
  simp only [Xorshift128p]
  rw [Nat.add_comm]

/-- C9 counterexample: the first table entry is the code's Xorshift+ output,
which is the sum of the two post-update state words and differs from the sum
of the two pre-update state words at the SplitMix64-initialised state of the
fixed seed 0xDEADBEEFDEADBEEF. -/
theorem xorshift_output_not_presum :
    mult32_random 0 = 0x97AECD63E10DE919 ∧
    ((Xorshift128p_init 0xDEADBEEFDEADBEEF).1 +
      (Xorshift128p_init 0xDEADBEEFDEADBEEF).2) % 2 ^ 64 = 0x90C88A8C7644EA31 ∧
    ¬ mult32_random 0 =
        ((Xorshift128p_init 0xDEADBEEFDEADBEEF).1 +
          (Xorshift128p_init 0xDEADBEEFDEADBEEF).2) % 2 ^ 64 :=
  ⟨by decide, by decide, by decide⟩

/-- C9 (amended): each Xorshift+ advance transforms word0 by the
shift-left-23 / shift-right-18 self-XOR combined with `word1 XOR (word1>>5)`
to produce the next word1, shifts the old word1 into word0, and outputs the
sum of the two post-update state words; the 137 table entries are exactly
the first 137 such outputs from the SplitMix64-based state initialised from
the fixed seed 0xDEADBEEFDEADBEEF. -/
theorem mult32_table_postsum_outputs (j : Nat) (h : j < RANDOM_LENGTH) :
    mult32_random j =
      ((xorshiftIterFrom (Xorshift128p_init 0xDEADBEEFDEADBEEF) (j + 1)).1 +
        (xorshiftIterFrom (Xorshift128p_init 0xDEADBEEFDEADBEEF) (j + 1)).2) % 2 ^ 64 := by
  rw [mult32_random, mult32_random_list,
    xorshiftOutputs_getD RANDOM_LENGTH j (Xorshift128p_init 0xDEADBEEFDEADBEEF) h,
    Xorshift128p_out_eq, xorshiftIterFrom_succ]

/-- C9 witness: the amended table characterisation at the first entry. -/
theorem mult32_table_postsum_outputs_w :
    mult32_random 0 =
      ((xorshiftIterFrom (Xorshift128p_init 0xDEADBEEFDEADBEEF) 1).1 +
        (xorshiftIterFrom (Xorshift128p_init 0xDEADBEEFDEADBEEF) 1).2) % 2 ^ 64 :=
  mult32_table_postsum_outputs 0 (by decide)

end Hashers
